import Mathlib

/-!
Verification of the `sf::Vector2<T>` 2D vector value type
(`include/SFML/System/Vector2.inl` and its header).

The coordinate type `T` is embedded as a type parameter `α`; the
floating-point instantiation is embedded over `ℝ`, and the integer
instantiation over `ℤ`.  Functions guarded by an `assert` in the source are
embedded as `Option`-returning functions whose `none` branch is the failed
assertion.  Member functions whose bodies spell the receiver `lhs` or
`vector` (leftover parameter names) are embedded with those names bound to
`*this`, the only reading consistent with the declarations.
-/

namespace SFML

structure Vector2 (α : Type) where
  x : α
  y : α
deriving DecidableEq, Repr

namespace Vector2

variable {α : Type}

/-- Default constructor `Vector2()`: creates a `Vector2(0, 0)`. -/
protected def zero [Zero α] : Vector2 α := ⟨0, 0⟩

/-- `operator==`: `(left.x == right.x) && (left.y == right.y)`. -/
def eqb [DecidableEq α] (left right : Vector2 α) : Bool :=
  decide (left.x = right.x) && decide (left.y = right.y)

/-- `operator!=`: `(left.x != right.x) || (left.y != right.y)`. -/
def neb [DecidableEq α] (left right : Vector2 α) : Bool :=
  decide (left.x ≠ right.x) || decide (left.y ≠ right.y)

/-- `Vector2<T>::dot`: `x * rhs.x + y * rhs.y`. -/
def dot [Mul α] [Add α] (v rhs : Vector2 α) : α :=
  v.x * rhs.x + v.y * rhs.y

/-- `Vector2<T>::cross`: `x * rhs.y - y * rhs.x`. -/
def cross [Mul α] [Sub α] (v rhs : Vector2 α) : α :=
  v.x * rhs.y - v.y * rhs.x

/-- `Vector2<T>::lengthSq`: `this->dot(*this)`. -/
def lengthSq [Mul α] [Add α] (v : Vector2 α) : α :=
  v.dot v

/-- `Vector2<T>::length`: `sqrt(lengthSq())` (floating-point instantiation). -/
noncomputable def length (v : Vector2 ℝ) : ℝ :=
  Real.sqrt v.lengthSq

/-- `Vector2<T>::cwiseMul`: `(x * rhs.x, y * rhs.y)`. -/
def cwiseMul [Mul α] (v rhs : Vector2 α) : Vector2 α :=
  ⟨v.x * rhs.x, v.y * rhs.y⟩

/-- `Vector2<T>::cwiseDiv`: asserts `rhs.x != 0 && rhs.y != 0`, then returns
`(x / rhs.x, y / rhs.y)`; the failed assertion is the `none` branch. -/
def cwiseDiv [Div α] [Zero α] [DecidableEq α] (v rhs : Vector2 α) :
    Option (Vector2 α) :=
  if decide (rhs.x ≠ 0) && decide (rhs.y ≠ 0) then
    some ⟨v.x / rhs.x, v.y / rhs.y⟩
  else none

/-- `Vector2<T>::perpendicular`: `Vector2<T>(-vector.y, vector.x)` where
`vector` is the receiver. -/
def perpendicular [Neg α] (v : Vector2 α) : Vector2 α :=
  ⟨-v.y, v.x⟩

/-- Unary `operator-`: `Vector2<T>(-right.x, -right.y)`. -/
def neg [Neg α] (right : Vector2 α) : Vector2 α :=
  ⟨-right.x, -right.y⟩

/-- Binary `operator+`: memberwise addition. -/
def add [Add α] (left right : Vector2 α) : Vector2 α :=
  ⟨left.x + right.x, left.y + right.y⟩

/-- Binary `operator-`: memberwise subtraction. -/
def sub [Sub α] (left right : Vector2 α) : Vector2 α :=
  ⟨left.x - right.x, left.y - right.y⟩

/-- `operator*(vector, scalar)`: `Vector2<T>(left.x * right, left.y * right)`. -/
def mulScalar [Mul α] (left : Vector2 α) (right : α) : Vector2 α :=
  ⟨left.x * right, left.y * right⟩

/-- `operator*(scalar, vector)`: `Vector2<T>(right.x * left, right.y * left)`. -/
def mulScalarLeft [Mul α] (left : α) (right : Vector2 α) : Vector2 α :=
  ⟨right.x * left, right.y * left⟩

/-- `operator/(vector, scalar)`: `Vector2<T>(left.x / right, left.y / right)`. -/
def divScalar [Div α] (left : Vector2 α) (right : α) : Vector2 α :=
  ⟨left.x / right, left.y / right⟩

/-- `operator+=`: mutates `left` memberwise by `+ right` and returns a
reference to `left`.  Embedded by state passing: the first component is the
mutated left operand, the second is the returned value. -/
def addAssign [Add α] (left right : Vector2 α) : Vector2 α × Vector2 α :=
  let l : Vector2 α := ⟨left.x + right.x, left.y + right.y⟩
  (l, l)

/-- `operator-=`: mutates `left` memberwise by `- right` and returns a
reference to `left`. -/
def subAssign [Sub α] (left right : Vector2 α) : Vector2 α × Vector2 α :=
  let l : Vector2 α := ⟨left.x - right.x, left.y - right.y⟩
  (l, l)

/-- `operator*=`: mutates `left` memberwise by `* right` and returns a
reference to `left`. -/
def mulAssign [Mul α] (left : Vector2 α) (right : α) : Vector2 α × Vector2 α :=
  let l : Vector2 α := ⟨left.x * right, left.y * right⟩
  (l, l)

/-- `operator/=`: mutates `left` memberwise by `/ right` and returns a
reference to `left`. -/
def divAssign [Div α] (left : Vector2 α) (right : α) : Vector2 α × Vector2 α :=
  let l : Vector2 α := ⟨left.x / right, left.y / right⟩
  (l, l)

end Vector2

/-- Modelled from the spec: the companion angle value type (`Angle.hpp` is not
under `src/`): an opaque unit of rotation, constructible from degrees or from
radians, queried via `asRadians` / `asDegrees` accessors.  The stored
representation is the degree measure. -/
structure Angle where
  asDegrees : ℝ

/-- Modelled from the spec: constructs an `Angle` from a degree value. -/
def degrees (d : ℝ) : Angle := ⟨d⟩

/-- Modelled from the spec: constructs an `Angle` from a radian value. -/
noncomputable def radians (r : ℝ) : Angle := ⟨r * 180 / Real.pi⟩

/-- Modelled from the spec: `Angle::asRadians`, the radian measure of the
stored degree value. -/
noncomputable def Angle.asRadians (a : Angle) : ℝ :=
  a.asDegrees * Real.pi / 180

/-- Shallow embedding of `std::atan2` from `<cmath>` (used by the source):
the angle in `(-π, π]` of the point `(x, y)`, by the usual case analysis on
the signs of the arguments. -/
noncomputable def atan2 (y x : ℝ) : ℝ :=
  if 0 < x then Real.arctan (y / x)
  else if x < 0 then
    if 0 ≤ y then Real.arctan (y / x) + Real.pi
    else Real.arctan (y / x) - Real.pi
  else
    if 0 < y then Real.pi / 2
    else if y < 0 then -(Real.pi / 2)
    else 0

namespace Vector2

/-- `Vector2<T>::signedAngleTo`: asserts both operands are non-zero, then
returns `radians(atan2(lhs.cross(rhs), lhs.dot(rhs)))` with `lhs` the
receiver; the failed assertions are the `none` branch. -/
noncomputable def signedAngleTo (v rhs : Vector2 ℝ) : Option Angle :=
  if v.neb Vector2.zero && rhs.neb Vector2.zero then
    some (radians (atan2 (v.cross rhs) (v.dot rhs)))
  else none

/-- `Vector2<T>::polarAngle`: asserts the receiver is non-zero, then returns
`radians(atan2(vector.y, vector.x))` with `vector` the receiver; the failed
assertion is the `none` branch. -/
noncomputable def polarAngle (v : Vector2 ℝ) : Option Angle :=
  if v.neb Vector2.zero then some (radians (atan2 v.y v.x)) else none

/-- `Vector2<T>::withPolarAngle`: no assertion; `vecLength = length(vector)`
and the result is `(vecLength * cos(newAngle), vecLength * sin(newAngle))`
with the angle taken in radians. -/
noncomputable def withPolarAngle (v : Vector2 ℝ) (newAngle : Angle) :
    Vector2 ℝ :=
  let vecLength := v.length
  ⟨vecLength * Real.cos newAngle.asRadians,
   vecLength * Real.sin newAngle.asRadians⟩

/-- `Vector2<T>::rotatedBy`: no assertion; with `c = cos(angle)` and
`s = sin(angle)` (angle in radians) the result is
`(c * x - s * y, s * x + c * y)`, both components from the original `x`, `y`. -/
noncomputable def rotatedBy (v : Vector2 ℝ) (angle : Angle) : Vector2 ℝ :=
  let c := Real.cos angle.asRadians
  let s := Real.sin angle.asRadians
  ⟨c * v.x - s * v.y, s * v.x + c * v.y⟩

end Vector2

/-- `atan2` always lands in `(-π, π]`. -/
theorem atan2_mem_Ioc (y x : ℝ) :
    -Real.pi < atan2 y x ∧ atan2 y x ≤ Real.pi := by
  have hpi := Real.pi_pos
  have harctan1 := Real.arctan_lt_pi_div_two (y / x)
  have harctan2 := Real.neg_pi_div_two_lt_arctan (y / x)
  unfold atan2
  rcases lt_trichotomy x 0 with hx | rfl | hx
  · rw [if_neg (by linarith), if_pos hx]
    rcases le_or_lt 0 y with hy | hy
    · rw [if_pos hy]
      have hq : y / x ≤ 0 := div_nonpos_iff.mpr (Or.inl ⟨hy, hx.le⟩)
      have hle := Real.arctan_strictMono.monotone hq
      rw [Real.arctan_zero] at hle
      constructor <;> linarith
    · rw [if_neg (not_le.mpr hy)]
      have hq : 0 < y / x := div_pos_of_neg_of_neg hy hx
      have hlt := Real.arctan_strictMono hq
      rw [Real.arctan_zero] at hlt
      constructor <;> linarith
  · rw [if_neg (lt_irrefl 0), if_neg (lt_irrefl 0)]
    rcases lt_trichotomy y 0 with hy | rfl | hy
    · rw [if_neg (by linarith), if_pos hy]
      constructor <;> linarith
    · rw [if_neg (lt_irrefl 0), if_neg (lt_irrefl 0)]
      constructor <;> linarith
    · rw [if_pos hy]
      constructor <;> linarith
  · rw [if_pos hx]
    constructor <;> linarith

/-- `atan2` is invariant under scaling both arguments by a positive factor. -/
theorem atan2_mul_left {c : ℝ} (hc : 0 < c) (y x : ℝ) :
    atan2 (c * y) (c * x) = atan2 y x := by
  have hdiv : c * y / (c * x) = y / x := by
    rcases eq_or_ne x 0 with rfl | hx
    · simp
    · rw [mul_div_mul_left y x (ne_of_gt hc)]
  have hx1 : (0 < c * x) ↔ (0 < x) := by
    constructor
    · intro h
      by_contra hcon
      push_neg at hcon
      nlinarith
    · intro h
      exact mul_pos hc h
  have hx2 : (c * x < 0) ↔ (x < 0) := by
    constructor
    · intro h
      by_contra hcon
      push_neg at hcon
      nlinarith
    · intro h
      exact mul_neg_of_pos_of_neg hc h
  have hy1 : (0 ≤ c * y) ↔ (0 ≤ y) := by
    constructor
    · intro h
      by_contra hcon
      push_neg at hcon
      nlinarith
    · intro h
      exact mul_nonneg hc.le h
  have hy2 : (0 < c * y) ↔ (0 < y) := by
    constructor
    · intro h
      by_contra hcon
      push_neg at hcon
      nlinarith
    · intro h
      exact mul_pos hc h
  have hy3 : (c * y < 0) ↔ (y < 0) := by
    constructor
    · intro h
      by_contra hcon
      push_neg at hcon
      nlinarith
    · intro h
      exact mul_neg_of_pos_of_neg hc h
  unfold atan2
  simp only [hdiv, hx1, hx2, hy1, hy2, hy3]

/-- On the principal range `(-π, π]`, `atan2 (sin θ) (cos θ) = θ`. -/
theorem atan2_sin_cos {θ : ℝ} (h1 : -Real.pi < θ) (h2 : θ ≤ Real.pi) :
    atan2 (Real.sin θ) (Real.cos θ) = θ := by
  have hpi := Real.pi_pos
  rcases lt_trichotomy θ (Real.pi / 2) with hlt | heq | hgt
  · rcases lt_trichotomy θ (-(Real.pi / 2)) with hlt2 | heq2 | hgt2
    · -- θ ∈ (-π, -π/2): cos θ < 0 and sin θ < 0
      have hcos : Real.cos θ < 0 := by
        have := Real.cos_neg_of_pi_div_two_lt_of_lt (x := -θ)
          (by linarith) (by linarith)
        rwa [Real.cos_neg] at this
      have hsin : Real.sin θ < 0 :=
        Real.sin_neg_of_neg_of_neg_pi_lt (by linarith) h1
      have htan : Real.sin θ / Real.cos θ = Real.tan (θ + Real.pi) := by
        rw [Real.tan_add_pi, Real.tan_eq_sin_div_cos]
      unfold atan2
      rw [if_neg (not_lt.mpr hcos.le), if_pos hcos, if_neg (not_le.mpr hsin),
        htan, Real.arctan_tan (by linarith) (by linarith)]
      ring
    · -- θ = -π/2
      rw [heq2]
      unfold atan2
      rw [Real.cos_neg, Real.cos_pi_div_two, Real.sin_neg, Real.sin_pi_div_two]
      norm_num [hpi]
    · -- θ ∈ (-π/2, π/2): cos θ > 0
      have hcos : 0 < Real.cos θ := Real.cos_pos_of_mem_Ioo ⟨hgt2, hlt⟩
      unfold atan2
      rw [if_pos hcos, ← Real.tan_eq_sin_div_cos, Real.arctan_tan hgt2 hlt]
  · -- θ = π/2
    rw [heq]
    unfold atan2
    rw [Real.cos_pi_div_two, Real.sin_pi_div_two]
    norm_num [hpi]
  · -- θ ∈ (π/2, π]
    rcases eq_or_lt_of_le h2 with heqpi | hltpi
    · -- θ = π
      rw [heqpi]
      unfold atan2
      rw [Real.cos_pi, Real.sin_pi]
      norm_num [hpi, Real.arctan_zero]
    · -- θ ∈ (π/2, π): cos θ < 0 and sin θ > 0
      have hcos : Real.cos θ < 0 :=
        Real.cos_neg_of_pi_div_two_lt_of_lt hgt (by linarith)
      have hsin : 0 < Real.sin θ :=
        Real.sin_pos_of_pos_of_lt_pi (by linarith) hltpi
      have htan : Real.sin θ / Real.cos θ = Real.tan (θ - Real.pi) := by
        rw [Real.tan_sub_pi, Real.tan_eq_sin_div_cos]
      unfold atan2
      rw [if_neg (not_lt.mpr hcos.le), if_pos hcos, if_pos hsin.le,
        htan, Real.arctan_tan (by linarith) (by linarith)]
      ring

/-- For an arbitrary `θ`, `atan2 (sin θ) (cos θ)` is `θ` reduced modulo `2π`
into the principal range. -/
theorem atan2_sin_cos_mod (θ : ℝ) :
    ∃ k : ℤ, atan2 (Real.sin θ) (Real.cos θ) = θ - (k : ℝ) * (2 * Real.pi) := by
  have h2pi : 0 < 2 * Real.pi := by positivity
  refine ⟨toIocDiv h2pi (-Real.pi) θ, ?_⟩
  set k : ℤ := toIocDiv h2pi (-Real.pi) θ with hk
  have hmem := toIocMod_mem_Ioc h2pi (-Real.pi) θ
  have hmod : toIocMod h2pi (-Real.pi) θ = θ - (k : ℝ) * (2 * Real.pi) := by
    rw [toIocMod, ← hk, zsmul_eq_mul]
  rw [hmod] at hmem
  have harg : θ - (k : ℝ) * (2 * Real.pi) + (k : ℝ) * (2 * Real.pi) = θ := by
    ring
  have hs : Real.sin θ = Real.sin (θ - (k : ℝ) * (2 * Real.pi)) := by
    have h := Real.sin_add_int_mul_two_pi (θ - (k : ℝ) * (2 * Real.pi)) k
    rwa [harg] at h
  have hc : Real.cos θ = Real.cos (θ - (k : ℝ) * (2 * Real.pi)) := by
    have h := Real.cos_add_int_mul_two_pi (θ - (k : ℝ) * (2 * Real.pi)) k
    rwa [harg] at h
  rw [hs, hc, atan2_sin_cos hmem.1 (by linarith [hmem.2])]

/-- Component-wise extensionality for `Vector2`. -/
theorem Vector2.ext2 {α : Type} {a b : Vector2 α} (hx : a.x = b.x)
    (hy : a.y = b.y) : a = b := by
  cases a
  cases b
  cases hx
  cases hy
  rfl

/-- The `operator!=` test against another vector decides propositional
inequality. -/
theorem Vector2.neb_eq_true_iff {α : Type} [DecidableEq α]
    (a b : Vector2 α) : a.neb b = true ↔ a ≠ b := by
  cases a with
  | mk ax ay =>
    cases b with
    | mk bx cy =>
      simp only [Vector2.neb, Bool.or_eq_true, decide_eq_true_eq, ne_eq,
        Vector2.mk.injEq, not_and]
      tauto

/-- A radian-constructed angle reads back the same radian value. -/
theorem asRadians_radians (r : ℝ) : (radians r).asRadians = r := by
  have hpi := Real.pi_ne_zero
  simp only [radians, Angle.asRadians]
  field_simp

/-- Degree bounds of a radian-constructed angle whose radian value lies in
`[-π, π]`. -/
theorem radians_asDegrees_bounds {r : ℝ} (h1 : -Real.pi ≤ r)
    (h2 : r ≤ Real.pi) :
    -180 ≤ (radians r).asDegrees ∧ (radians r).asDegrees ≤ 180 := by
  have hpi := Real.pi_pos
  simp only [radians]
  constructor
  · rw [le_div_iff₀ hpi]
    nlinarith
  · rw [div_le_iff₀ hpi]
    nlinarith

/-- A nonzero real vector has positive squared length. -/
theorem Vector2.lengthSq_pos {v : Vector2 ℝ} (hv : v ≠ Vector2.zero) :
    0 < v.lengthSq := by
  cases v with
  | mk x y =>
    have hxy : ¬(x = 0 ∧ y = 0) := by
      intro h
      exact hv (by simp [Vector2.zero, h.1, h.2])
    simp only [Vector2.lengthSq, Vector2.dot]
    rcases Classical.em (x = 0) with hx | hx
    · have hy : y ≠ 0 := fun h => hxy ⟨hx, h⟩
      nlinarith [mul_self_pos.mpr hy, mul_self_nonneg x]
    · nlinarith [mul_self_pos.mpr hx, mul_self_nonneg y]

/-- A nonzero real vector has positive length. -/
theorem Vector2.length_pos {v : Vector2 ℝ} (hv : v ≠ Vector2.zero) :
    0 < v.length :=
  Real.sqrt_pos.mpr (Vector2.lengthSq_pos hv)

/-- Unfolding of `polarAngle` on a nonzero vector: the assertion passes and
the `atan2` value is returned. -/
theorem Vector2.polarAngle_eq {v : Vector2 ℝ} (hv : v ≠ Vector2.zero) :
    v.polarAngle = some (radians (atan2 v.y v.x)) := by
  rw [Vector2.polarAngle,
    if_pos ((Vector2.neb_eq_true_iff v Vector2.zero).mpr hv)]

/-- C6: for every pair of vectors `v` and `w` (over any commutative-ring
coordinate type), `cross(v, w) = -cross(w, v)`, where
`cross(v, w) = v.x * w.y - v.y * w.x`. -/
theorem claim_C6_cross_anticommutative {α : Type} [CommRing α]
    (v w : Vector2 α) :
    v.cross w = -(w.cross v) ∧ v.cross w = v.x * w.y - v.y * w.x := by
  constructor
  · simp only [Vector2.cross]
    ring
  · rfl

/-- C7: for every vector `v` over the integer coordinate type and every
scalar `s ≠ 0`, `(v * s) / s = v` exactly, with `*` the memberwise scalar
multiplication and `/` the memberwise scalar division (all integer division
conventions agree here because `s` divides each product evenly). -/
theorem claim_C7_mul_div_cancel_int (v : Vector2 ℤ) (s : ℤ) (hs : s ≠ 0) :
    (v.mulScalar s).divScalar s = v := by
  simp only [Vector2.mulScalar, Vector2.divScalar]
  cases v with
  | mk x y => simp [Int.mul_ediv_cancel _ hs]

/-- C7 witness at `v = (3, -5)`, `s = 2`. -/
theorem claim_C7_mul_div_cancel_int_witness :
    (2 : ℤ) ≠ 0 ∧
      ((⟨3, -5⟩ : Vector2 ℤ).mulScalar 2).divScalar 2 = (⟨3, -5⟩ : Vector2 ℤ) :=
  ⟨by decide, claim_C7_mul_div_cancel_int ⟨3, -5⟩ 2 (by decide)⟩

/-- C9: the compound-assignment operators agree with the pure binary
operators: after `a += b` the left operand equals `a + b` (likewise for
`-=`/`-`, `*=`/`*`, `/=`/`/`), and each compound form returns (a reference
to) the mutated left operand itself. -/
theorem claim_C9_compound_assign_agrees (a b : Vector2 ℝ) (s : ℝ) :
    (a.addAssign b).1 = a.add b ∧ (a.addAssign b).2 = (a.addAssign b).1 ∧
    (a.subAssign b).1 = a.sub b ∧ (a.subAssign b).2 = (a.subAssign b).1 ∧
    (a.mulAssign s).1 = a.mulScalar s ∧ (a.mulAssign s).2 = (a.mulAssign s).1 ∧
    (a.divAssign s).1 = a.divScalar s ∧ (a.divAssign s).2 = (a.divAssign s).1 :=
  ⟨rfl, rfl, rfl, rfl, rfl, rfl, rfl, rfl⟩

/-- C10: `operator!=` is exactly the logical negation of `operator==`:
`a != b` is `true` if and only if `a == b` is `false` (over any coordinate
type with decidable equality). -/
theorem claim_C10_ne_is_not_eq {α : Type} [DecidableEq α] (a b : Vector2 α) :
    a.neb b = !(a.eqb b) ∧ (a.neb b = true ↔ a.eqb b = false) := by
  constructor
  · simp only [Vector2.neb, Vector2.eqb]
    by_cases hx : a.x = b.x <;> by_cases hy : a.y = b.y <;> simp [hx, hy]
  · simp only [Vector2.neb, Vector2.eqb]
    by_cases hx : a.x = b.x <;> by_cases hy : a.y = b.y <;> simp [hx, hy]

/-- C2: for every vector `v = (x, y)` and every angle `θ`, `rotatedBy`
returns `(x cos θ − y sin θ, x sin θ + y cos θ)` with both components
computed from the original `x` and `y`; in particular the zero vector is
mapped to itself for every angle. -/
theorem claim_C2_rotatedBy (v : Vector2 ℝ) (a : Angle) :
    v.rotatedBy a =
      ⟨v.x * Real.cos a.asRadians - v.y * Real.sin a.asRadians,
       v.x * Real.sin a.asRadians + v.y * Real.cos a.asRadians⟩ ∧
    (Vector2.zero : Vector2 ℝ).rotatedBy a = Vector2.zero := by
  constructor
  · refine Vector2.ext2 ?_ ?_ <;> simp only [Vector2.rotatedBy] <;> ring
  · refine Vector2.ext2 ?_ ?_ <;>
      simp [Vector2.rotatedBy, Vector2.zero]

/-- C3: for every vector `v = (x, y)`, with no precondition,
`perpendicular` returns exactly `(-y, x)`, which is the 90-degree
counter-clockwise rotation of `v` (it agrees with `rotatedBy` at 90°). -/
theorem claim_C3_perpendicular (v : Vector2 ℝ) :
    v.perpendicular = ⟨-v.y, v.x⟩ ∧
    v.perpendicular = v.rotatedBy (degrees 90) := by
  refine ⟨rfl, ?_⟩
  have h90 : (degrees 90).asRadians = Real.pi / 2 := by
    simp only [degrees, Angle.asRadians]
    ring
  refine Vector2.ext2 ?_ ?_ <;>
    simp [Vector2.perpendicular, Vector2.rotatedBy, h90,
      Real.cos_pi_div_two, Real.sin_pi_div_two]

/-- C8: for every pair of vectors `v` and `rhs` with `rhs.x ≠ 0` and
`rhs.y ≠ 0`, `cwiseDiv` returns `(v.x / rhs.x, v.y / rhs.y)`: the assertion
guarding the divisions holds, so the error branch (`none`) is unreachable. -/
theorem claim_C8_cwiseDiv (v rhs : Vector2 ℝ) (hx : rhs.x ≠ 0)
    (hy : rhs.y ≠ 0) :
    v.cwiseDiv rhs = some ⟨v.x / rhs.x, v.y / rhs.y⟩ := by
  rw [Vector2.cwiseDiv, if_pos]
  simp [hx, hy]

/-- C8 witness at `v = (6, 8)`, `rhs = (2, 4)`. -/
theorem claim_C8_cwiseDiv_witness :
    (2 : ℝ) ≠ 0 ∧ (4 : ℝ) ≠ 0 ∧
      (⟨6, 8⟩ : Vector2 ℝ).cwiseDiv ⟨2, 4⟩ = some ⟨6 / 2, 8 / 4⟩ :=
  ⟨by norm_num, by norm_num,
    claim_C8_cwiseDiv ⟨6, 8⟩ ⟨2, 4⟩ (by norm_num) (by norm_num)⟩

/-- `atan2` at the point `(1, 0)` (so `y = 0`, `x = 1`) is `0`. -/
theorem atan2_zero_one : atan2 0 1 = 0 := by
  unfold atan2
  rw [if_pos one_pos]
  norm_num [Real.arctan_zero]

/-- `atan2` at the point `(0, 1)` (so `y = 1`, `x = 0`) is `π / 2`. -/
theorem atan2_one_zero : atan2 1 0 = Real.pi / 2 := by
  unfold atan2
  rw [if_neg (lt_irrefl 0), if_neg (lt_irrefl 0), if_pos one_pos]

/-- The angle of `0` radians is the angle of `0` degrees. -/
theorem radians_zero : radians 0 = degrees 0 := by
  simp [radians, degrees]

/-- The angle of `π / 2` radians is the angle of `90` degrees. -/
theorem radians_pi_div_two : radians (Real.pi / 2) = degrees 90 := by
  have hpi := Real.pi_ne_zero
  simp only [radians, degrees, Angle.mk.injEq]
  have h : Real.pi / 2 * 180 = 90 * Real.pi := by ring
  rw [h, mul_div_assoc, div_self hpi, mul_one]

/-- Unfolding of `signedAngleTo` on nonzero operands: both assertions pass
and the `atan2` value is returned. -/
theorem Vector2.signedAngleTo_eq {v rhs : Vector2 ℝ} (hv : v ≠ Vector2.zero)
    (hrhs : rhs ≠ Vector2.zero) :
    v.signedAngleTo rhs =
      some (radians (atan2 (v.cross rhs) (v.dot rhs))) := by
  have hguard : (v.neb Vector2.zero && rhs.neb Vector2.zero) = true := by
    rw [Bool.and_eq_true]
    exact ⟨(Vector2.neb_eq_true_iff v Vector2.zero).mpr hv,
      (Vector2.neb_eq_true_iff rhs Vector2.zero).mpr hrhs⟩
  rw [Vector2.signedAngleTo, if_pos hguard]

/-- C1: for nonzero vectors `v` and `rhs`, `signedAngleTo` returns the angle
`atan2(cross(v, rhs), dot(v, rhs))` converted from radians to degrees, and
that degree value lies in `[-180, 180]`. -/
theorem claim_C1_signedAngleTo (v rhs : Vector2 ℝ) (hv : v ≠ Vector2.zero)
    (hrhs : rhs ≠ Vector2.zero) :
    v.signedAngleTo rhs =
      some (radians (atan2 (v.cross rhs) (v.dot rhs))) ∧
    (radians (atan2 (v.cross rhs) (v.dot rhs))).asDegrees =
      atan2 (v.cross rhs) (v.dot rhs) * 180 / Real.pi ∧
    -180 ≤ (radians (atan2 (v.cross rhs) (v.dot rhs))).asDegrees ∧
    (radians (atan2 (v.cross rhs) (v.dot rhs))).asDegrees ≤ 180 := by
  have hIoc := atan2_mem_Ioc (v.cross rhs) (v.dot rhs)
  have hb := radians_asDegrees_bounds hIoc.1.le hIoc.2
  exact ⟨Vector2.signedAngleTo_eq hv hrhs, rfl, hb.1, hb.2⟩

/-- C1 witness at `v = (1, 0)`, `rhs = (0, 1)`: the signed angle is 90°. -/
theorem claim_C1_signedAngleTo_witness :
    (⟨1, 0⟩ : Vector2 ℝ) ≠ Vector2.zero ∧
      (⟨0, 1⟩ : Vector2 ℝ) ≠ Vector2.zero ∧
      (⟨1, 0⟩ : Vector2 ℝ).signedAngleTo ⟨0, 1⟩ = some (degrees 90) := by
  have h1 : (⟨1, 0⟩ : Vector2 ℝ) ≠ Vector2.zero :=
    fun h => one_ne_zero (congrArg Vector2.x h)
  have h2 : (⟨0, 1⟩ : Vector2 ℝ) ≠ Vector2.zero :=
    fun h => one_ne_zero (congrArg Vector2.y h)
  refine ⟨h1, h2, ?_⟩
  rw [(claim_C1_signedAngleTo ⟨1, 0⟩ ⟨0, 1⟩ h1 h2).1]
  have hcross : (⟨1, 0⟩ : Vector2 ℝ).cross ⟨0, 1⟩ = 1 := by
    norm_num [Vector2.cross]
  have hdot : (⟨1, 0⟩ : Vector2 ℝ).dot ⟨0, 1⟩ = 0 := by
    norm_num [Vector2.dot]
  rw [hcross, hdot, atan2_one_zero, radians_pi_div_two]

/-- C5: for every nonzero vector `v`, `polarAngle` returns
`atan2(v.y, v.x)` converted to degrees, the result lies in `[-180, 180]`,
and in particular `polarAngle((1,0)) = 0°` and `polarAngle((0,1)) = 90°`. -/
theorem claim_C5_polarAngle (v : Vector2 ℝ) (hv : v ≠ Vector2.zero) :
    v.polarAngle = some (radians (atan2 v.y v.x)) ∧
    (radians (atan2 v.y v.x)).asDegrees = atan2 v.y v.x * 180 / Real.pi ∧
    -180 ≤ (radians (atan2 v.y v.x)).asDegrees ∧
    (radians (atan2 v.y v.x)).asDegrees ≤ 180 ∧
    (⟨1, 0⟩ : Vector2 ℝ).polarAngle = some (degrees 0) ∧
    (⟨0, 1⟩ : Vector2 ℝ).polarAngle = some (degrees 90) := by
  have hIoc := atan2_mem_Ioc v.y v.x
  have hb := radians_asDegrees_bounds hIoc.1.le hIoc.2
  refine ⟨Vector2.polarAngle_eq hv, rfl, hb.1, hb.2, ?_, ?_⟩
  · have h1 : (⟨1, 0⟩ : Vector2 ℝ) ≠ Vector2.zero :=
      fun h => one_ne_zero (congrArg Vector2.x h)
    rw [Vector2.polarAngle_eq h1]
    show some (radians (atan2 0 1)) = some (degrees 0)
    rw [atan2_zero_one, radians_zero]
  · have h2 : (⟨0, 1⟩ : Vector2 ℝ) ≠ Vector2.zero :=
      fun h => one_ne_zero (congrArg Vector2.y h)
    rw [Vector2.polarAngle_eq h2]
    show some (radians (atan2 1 0)) = some (degrees 90)
    rw [atan2_one_zero, radians_pi_div_two]

/-- C5 witness at `v = (0, 1)`: the polar angle is 90°. -/
theorem claim_C5_polarAngle_witness :
    (⟨0, 1⟩ : Vector2 ℝ) ≠ Vector2.zero ∧
      (⟨0, 1⟩ : Vector2 ℝ).polarAngle = some (degrees 90) := by
  have hne : (⟨0, 1⟩ : Vector2 ℝ) ≠ Vector2.zero :=
    fun h => one_ne_zero (congrArg Vector2.y h)
  exact ⟨hne, (claim_C5_polarAngle ⟨0, 1⟩ hne).2.2.2.2.2⟩

/-- C4: `withPolarAngle` maps the zero vector to the zero vector for every
angle, and for a nonzero vector `v` it returns a vector of the same length
whose polar angle agrees with the given angle (as a direction, i.e. up to a
whole number of turns, since `polarAngle` reduces into `(-180°, 180°]`). -/
theorem claim_C4_withPolarAngle (v : Vector2 ℝ) (a : Angle)
    (hv : v ≠ Vector2.zero) :
    (Vector2.zero : Vector2 ℝ).withPolarAngle a = Vector2.zero ∧
    (v.withPolarAngle a).length = v.length ∧
    ∃ b : Angle, (v.withPolarAngle a).polarAngle = some b ∧
      ∃ k : ℤ, b.asRadians = a.asRadians - (k : ℝ) * (2 * Real.pi) := by
  have hLpos : 0 < v.length := Vector2.length_pos hv
  have hL0 : (Vector2.zero : Vector2 ℝ).length = 0 := by
    simp [Vector2.length, Vector2.lengthSq, Vector2.dot, Vector2.zero]
  have hsq : (v.withPolarAngle a).lengthSq = v.length ^ 2 := by
    show v.length * Real.cos a.asRadians * (v.length * Real.cos a.asRadians) +
        v.length * Real.sin a.asRadians * (v.length * Real.sin a.asRadians) =
        v.length ^ 2
    have h := Real.sin_sq_add_cos_sq a.asRadians
    nlinarith [h]
  have hlen : (v.withPolarAngle a).length = v.length := by
    rw [Vector2.length, hsq, Real.sqrt_sq hLpos.le]
  refine ⟨?_, hlen, ?_⟩
  · refine Vector2.ext2 ?_ ?_
    · show (Vector2.zero : Vector2 ℝ).length * Real.cos a.asRadians = 0
      rw [hL0, zero_mul]
    · show (Vector2.zero : Vector2 ℝ).length * Real.sin a.asRadians = 0
      rw [hL0, zero_mul]
  · have hw : v.withPolarAngle a ≠ Vector2.zero := by
      intro hcon
      have hx : v.length * Real.cos a.asRadians = 0 := congrArg Vector2.x hcon
      have hy : v.length * Real.sin a.asRadians = 0 := congrArg Vector2.y hcon
      have hcos : Real.cos a.asRadians = 0 := by
        rcases mul_eq_zero.mp hx with h | h
        · exact absurd h (ne_of_gt hLpos)
        · exact h
      have hsin : Real.sin a.asRadians = 0 := by
        rcases mul_eq_zero.mp hy with h | h
        · exact absurd h (ne_of_gt hLpos)
        · exact h
      have hone := Real.sin_sq_add_cos_sq a.asRadians
      rw [hsin, hcos] at hone
      norm_num at hone
    obtain ⟨k, hk⟩ := atan2_sin_cos_mod a.asRadians
    refine ⟨radians (atan2 (v.withPolarAngle a).y (v.withPolarAngle a).x),
      Vector2.polarAngle_eq hw, k, ?_⟩
    have hxy : atan2 (v.withPolarAngle a).y (v.withPolarAngle a).x =
        atan2 (Real.sin a.asRadians) (Real.cos a.asRadians) := by
      show atan2 (v.length * Real.sin a.asRadians)
          (v.length * Real.cos a.asRadians) =
        atan2 (Real.sin a.asRadians) (Real.cos a.asRadians)
      exact atan2_mul_left hLpos _ _
    rw [asRadians_radians, hxy, hk]

/-- C4 witness at `v = (1, 0)`, `a = 0°`. -/
theorem claim_C4_withPolarAngle_witness :
    (⟨1, 0⟩ : Vector2 ℝ) ≠ Vector2.zero ∧
      ((Vector2.zero : Vector2 ℝ).withPolarAngle (degrees 0) = Vector2.zero ∧
        ((⟨1, 0⟩ : Vector2 ℝ).withPolarAngle (degrees 0)).length =
          (⟨1, 0⟩ : Vector2 ℝ).length ∧
        ∃ b : Angle,
          ((⟨1, 0⟩ : Vector2 ℝ).withPolarAngle (degrees 0)).polarAngle =
            some b ∧
          ∃ k : ℤ,
            b.asRadians = (degrees 0).asRadians - (k : ℝ) * (2 * Real.pi)) := by
  have hne : (⟨1, 0⟩ : Vector2 ℝ) ≠ Vector2.zero :=
    fun h => one_ne_zero (congrArg Vector2.x h)
  exact ⟨hne, claim_C4_withPolarAngle ⟨1, 0⟩ (degrees 0) hne⟩

/-- C2 witness at `v = (1, 2)`, `a = 0°`. -/
theorem claim_C2_rotatedBy_witness :
    (⟨1, 2⟩ : Vector2 ℝ).rotatedBy (degrees 0) =
      ⟨(⟨1, 2⟩ : Vector2 ℝ).x * Real.cos (degrees 0).asRadians -
          (⟨1, 2⟩ : Vector2 ℝ).y * Real.sin (degrees 0).asRadians,
        (⟨1, 2⟩ : Vector2 ℝ).x * Real.sin (degrees 0).asRadians +
          (⟨1, 2⟩ : Vector2 ℝ).y * Real.cos (degrees 0).asRadians⟩ ∧
      (Vector2.zero : Vector2 ℝ).rotatedBy (degrees 0) = Vector2.zero :=
  claim_C2_rotatedBy ⟨1, 2⟩ (degrees 0)

/-- C3 witness at `v = (1, 2)`. -/
theorem claim_C3_perpendicular_witness :
    (⟨1, 2⟩ : Vector2 ℝ).perpendicular = ⟨-(⟨1, 2⟩ : Vector2 ℝ).y,
        (⟨1, 2⟩ : Vector2 ℝ).x⟩ ∧
      (⟨1, 2⟩ : Vector2 ℝ).perpendicular =
        (⟨1, 2⟩ : Vector2 ℝ).rotatedBy (degrees 90) :=
  claim_C3_perpendicular ⟨1, 2⟩

/-- C6 witness at `v = (1, 2)`, `w = (3, 4)`. -/
theorem claim_C6_cross_anticommutative_witness :
    (⟨1, 2⟩ : Vector2 ℤ).cross ⟨3, 4⟩ = -((⟨3, 4⟩ : Vector2 ℤ).cross ⟨1, 2⟩) ∧
      (⟨1, 2⟩ : Vector2 ℤ).cross ⟨3, 4⟩ = 1 * 4 - 2 * 3 :=
  claim_C6_cross_anticommutative ⟨1, 2⟩ ⟨3, 4⟩

/-- C9 witness at `a = (1, 2)`, `b = (3, 4)`, `s = 2`. -/
theorem claim_C9_compound_assign_agrees_witness :
    ((⟨1, 2⟩ : Vector2 ℝ).addAssign ⟨3, 4⟩).1 =
        (⟨1, 2⟩ : Vector2 ℝ).add ⟨3, 4⟩ ∧
      ((⟨1, 2⟩ : Vector2 ℝ).addAssign ⟨3, 4⟩).2 =
        ((⟨1, 2⟩ : Vector2 ℝ).addAssign ⟨3, 4⟩).1 ∧
      ((⟨1, 2⟩ : Vector2 ℝ).subAssign ⟨3, 4⟩).1 =
        (⟨1, 2⟩ : Vector2 ℝ).sub ⟨3, 4⟩ ∧
      ((⟨1, 2⟩ : Vector2 ℝ).subAssign ⟨3, 4⟩).2 =
        ((⟨1, 2⟩ : Vector2 ℝ).subAssign ⟨3, 4⟩).1 ∧
      ((⟨1, 2⟩ : Vector2 ℝ).mulAssign 2).1 =
        (⟨1, 2⟩ : Vector2 ℝ).mulScalar 2 ∧
      ((⟨1, 2⟩ : Vector2 ℝ).mulAssign 2).2 =
        ((⟨1, 2⟩ : Vector2 ℝ).mulAssign 2).1 ∧
      ((⟨1, 2⟩ : Vector2 ℝ).divAssign 2).1 =
        (⟨1, 2⟩ : Vector2 ℝ).divScalar 2 ∧
      ((⟨1, 2⟩ : Vector2 ℝ).divAssign 2).2 =
        ((⟨1, 2⟩ : Vector2 ℝ).divAssign 2).1 :=
  claim_C9_compound_assign_agrees ⟨1, 2⟩ ⟨3, 4⟩ 2

/-- C10 witness at `a = (1, 2)`, `b = (1, 3)`. -/
theorem claim_C10_ne_is_not_eq_witness :
    (⟨1, 2⟩ : Vector2 ℤ).neb ⟨1, 3⟩ = !((⟨1, 2⟩ : Vector2 ℤ).eqb ⟨1, 3⟩) ∧
      ((⟨1, 2⟩ : Vector2 ℤ).neb ⟨1, 3⟩ = true ↔
        (⟨1, 2⟩ : Vector2 ℤ).eqb ⟨1, 3⟩ = false) :=
  claim_C10_ne_is_not_eq ⟨1, 2⟩ ⟨1, 3⟩

end SFML
